import Mathlib

/-
Verification of the SightCeption two-node pipeline.

Camera node: src/circuit/sightception-cam/src/main.cpp
Listener node: src/circuit/SightCeption/src/main.cpp

The embedding is shallow: byte buffers become List Nat, audio samples
become List Int, classifier confidences (C floats in [0,1]) become
rationals, wall-clock milliseconds become Nat, and the MQTT transport
becomes an oracle of per-publish boolean results plus a trace of the
publish calls the code makes.
-/

namespace SightCeption

namespace Cam

/-- CHUNK_SIZE from main.cpp line 48: 2KB chunks. -/
def CHUNK_SIZE : Nat := 2048

/-- SIGNAL_TIMEOUT from main.cpp line 46: 10 seconds. -/
def SIGNAL_TIMEOUT : Nat := 10000

/-- A publish call made by captureAndSendImage or the callback, by topic
shape: start descriptor, numbered chunk with its byte payload, end marker,
or a free-text log message. -/
inductive Msg where
  | startM (imageId size total : Nat)
  | chunkM (idx : Nat) (data : List Nat)
  | endM (imageId : Nat)
  | logM (text : String)
deriving DecidableEq

/-- totalChunks from main.cpp line 156:
(fb.len + CHUNK_SIZE - 1) / CHUNK_SIZE. -/
def totalChunks (len : Nat) : Nat := (len + CHUNK_SIZE - 1) / CHUNK_SIZE

/-- The byte slice a chunk of index i carries: bytes
from i*CHUNK_SIZE up to min((i+1)*CHUNK_SIZE, len). -/
def chunkSlice (fb : List Nat) (i : Nat) : List Nat :=
  (fb.drop (i * CHUNK_SIZE)).take CHUNK_SIZE

/-- The chunk publishing loop of captureAndSendImage (main.cpp lines
173-185). Arguments mirror the loop state: current index, current byte
offset, and the number of loop iterations left (totalChunks - idx).
chunkOk gives the transport result of publishing chunk idx; on a false
result the code logs a failure message and breaks out of the loop. The
returned list records every publish call made, in order. -/
def chunkLoop (fb : List Nat) (chunkOk : Nat → Bool) :
    Nat → Nat → Nat → List Msg
  | _idx, _offset, 0 => []
  | idx, offset, Nat.succ n =>
    let remaining := fb.length - offset
    let toSend := if remaining < CHUNK_SIZE then remaining else CHUNK_SIZE
    let data := (fb.drop offset).take toSend
    if chunkOk idx then
      Msg.chunkM idx data :: chunkLoop fb chunkOk (idx + 1) (offset + toSend) n
    else
      [Msg.chunkM idx data, Msg.logM "esp32cam: chunk publish failed"]

/-- The publish phase of captureAndSendImage (main.cpp lines 153-195),
entered once the frame buffer is captured and the client is connected.
startOk and endOk are the transport results of the start and end
publishes; the code discards both return values, so neither influences
control flow. The result is the ordered list of publish calls. -/
def captureAndSendImage (fb : List Nat) (imageId : Nat)
    (startOk : Bool) (chunkOk : Nat → Bool) (endOk : Bool) : List Msg :=
  Msg.startM imageId fb.length (totalChunks fb.length)
    :: (chunkLoop fb chunkOk 0 0 (totalChunks fb.length)
        ++ [Msg.endM imageId,
            Msg.logM "esp32cam: image published (chunked)"])

/-- Camera-node mutable state touched by the callback and the loop
(main.cpp lines 44-45). -/
structure CamState where
  imageRequested : Bool
  lastSignalTime : Nat
deriving DecidableEq

/-- Checks whether the pattern list is an initial segment of the text
list, mirroring the position-wise comparison String.indexOf performs at
one position. -/
def startsWithSub : List Char → List Char → Bool
  | [], _ => true
  | _ :: _, [] => false
  | a :: s, b :: l => a == b && startsWithSub s l

/-- message.indexOf(sub) != -1 from the callback: the pattern occurs as a
contiguous run somewhere in the text. -/
def hasSub : List Char → List Char → Bool
  | [], sub => startsWithSub sub []
  | c :: rest, sub => startsWithSub sub (c :: rest) || hasSub rest sub

/-- The wake-signal validation of callback (main.cpp line 102): presence
of both field-name substrings, nothing more. -/
def validSignal (msg : List Char) : Bool :=
  hasSub msg "device_id".toList && hasSub msg "timestamp".toList

/-- Topics the camera node distinguishes in its callback. -/
inductive CamTopic where
  | signal
  | command
  | other

/-- callback from main.cpp lines 85-122, restricted to its effect on the
node state: on the wake-signal topic a payload passing validSignal arms
the pending capture and stamps the time; on the command topic the token
capture_once does the same; anything else is ignored. -/
def callback (st : CamState) (topic : CamTopic) (msg : List Char)
    (now : Nat) : CamState :=
  match topic with
  | .signal =>
    if validSignal msg then { imageRequested := true, lastSignalTime := now }
    else st
  | .command =>
    if hasSub msg "capture_once".toList then
      { imageRequested := true, lastSignalTime := now }
    else st
  | .other => st

/-- One pass of loop (main.cpp lines 273-292) over the node state, after
the connection handling: consume the pending-capture flag (triggering a
capture, reported as the boolean), then reset lastSignalTime once it is
older than SIGNAL_TIMEOUT. -/
def camLoopStep (st : CamState) (now : Nat) : CamState × Bool :=
  let p := if st.imageRequested
    then ({ st with imageRequested := false }, true)
    else (st, false)
  let st1 := p.1
  let st2 := if st1.lastSignalTime > 0 && now - st1.lastSignalTime > SIGNAL_TIMEOUT
    then { st1 with lastSignalTime := 0 }
    else st1
  (st2, p.2)

end Cam

namespace Listener

/-- WAKEWORD_THRESHOLD from main.cpp line 46, the literal 0.4.
Classifier confidences are C floats in [0,1]; the embedding models them
as rationals with exact comparisons. The threshold is written with mkRat
so the kernel can evaluate comparisons; WAKEWORD_THRESHOLD_eq checks it
equals the source literal 0.4. -/
def WAKEWORD_THRESHOLD : ℚ := mkRat 2 5

theorem WAKEWORD_THRESHOLD_eq : WAKEWORD_THRESHOLD = 0.4 := by
  unfold WAKEWORD_THRESHOLD
  norm_num [Rat.mkRat_eq_div]

/-- Accumulator of the label scan in performWakewordDetection (main.cpp
lines 311-313): wakewordFound, maxConfidence, detectedLabel. -/
structure ScanAcc where
  wakewordFound : Bool
  maxConfidence : ℚ
  detectedLabel : String
deriving DecidableEq

/-- The guard of the scan loop (main.cpp lines 321-325): the confidence
must exceed the threshold and the label must be none of the four reserved
non-wakeword labels. -/
def eligibleEntry (entry : String × ℚ) : Prop :=
  entry.2 > WAKEWORD_THRESHOLD ∧ entry.1 ≠ "noise" ∧
    entry.1 ≠ "unknown" ∧ entry.1 ≠ "_unknown" ∧ entry.1 ≠ "background"

instance (entry : String × ℚ) : Decidable (eligibleEntry entry) :=
  inferInstanceAs (Decidable (entry.2 > WAKEWORD_THRESHOLD ∧
    entry.1 ≠ "noise" ∧ entry.1 ≠ "unknown" ∧ entry.1 ≠ "_unknown" ∧
    entry.1 ≠ "background"))

/-- One iteration of the scan loop (main.cpp lines 315-335): an eligible
entry replaces the current best only when its confidence strictly exceeds
the running maximum, which resolves ties in favour of the entry seen
first. -/
def scanStep (acc : ScanAcc) (entry : String × ℚ) : ScanAcc :=
  if eligibleEntry entry then
    if entry.2 > acc.maxConfidence then ⟨true, entry.2, entry.1⟩ else acc
  else acc

/-- The full scan over the classification result, in first-seen order,
starting from wakewordFound = false, maxConfidence = 0, empty label. -/
def scanResults (results : List (String × ℚ)) : ScanAcc :=
  results.foldl scanStep ⟨false, 0, ""⟩

/-- DetectionState of the spec data model: the globals wakewordDetected
and lastDetectionTime (main.cpp lines 50-51) together with the label and
confidence the detection records. -/
structure DetectionState where
  active : Bool
  label : String
  confidence : ℚ
  triggeredAt : Nat
deriving DecidableEq

/-- The state transition of performWakewordDetection after the scan
(main.cpp lines 337-352): when a wake word was found the state becomes
active with the selected label, confidence and current time; otherwise
the state is left untouched. -/
def detectUpdate (st : DetectionState) (results : List (String × ℚ))
    (now : Nat) : DetectionState :=
  let acc := scanResults results
  if acc.wakewordFound then ⟨true, acc.detectedLabel, acc.maxConfidence, now⟩
  else st

/-- SignalMessage of the spec data model, as serialized by
publishWakeWordSignal (main.cpp lines 152-155). -/
structure SignalMessage where
  deviceId : String
  timestamp : Nat
deriving DecidableEq

/-- publishWakeWordSignal (main.cpp lines 146-167): when the client is
not connected the function returns at once and no publish call is made;
otherwise exactly one signal publish is attempted. The result is the
list of attempted signal publishes. -/
def publishWakeWordSignal (connected : Bool) (now : Nat) :
    List SignalMessage :=
  if connected then [⟨"sightception-esp32-001", now⟩] else []

/-- The decision tail of performWakewordDetection (main.cpp lines
337-352): the detection-state update together with the signal publishes
it attempts. The state is written before publishWakeWordSignal runs, so
it does not depend on connectivity. -/
def performWakewordDetection (st : DetectionState)
    (results : List (String × ℚ)) (connected : Bool) (now : Nat) :
    DetectionState × List SignalMessage :=
  (detectUpdate st results now,
   if (scanResults results).wakewordFound then publishWakeWordSignal connected now
   else [])

/-- The expiry check of loop (main.cpp lines 805-810): an active
detection polled strictly more than 5000 ms after its trigger time is
deactivated. This check runs on every loop pass, independently of any
classification. -/
def loopExpiryCheck (st : DetectionState) (now : Nat) : DetectionState :=
  if st.active && (now - st.triggeredAt > 5000) then { st with active := false }
  else st

/-- One i2s_read call in the acquisition loop of performWakewordDetection
(main.cpp line 245): either a non-OK esp_err_t (which also covers a read
timeout surfacing as an error code), or a block of samples; bytesRead = 0
appears as an empty block. -/
inductive ReadEvent where
  | err
  | ok (samples : List Int)

/-- Outcome of the acquisition phase: a hardware fault (the cycle aborts
before classification), a fully populated window handed to the
classifier, or an exhausted event trace (the code would still be blocked
reading; no classification has happened either). -/
inductive FillOutcome where
  | fault
  | window (w : List Int)
  | starved
deriving DecidableEq

/-- The window fill loop (main.cpp lines 244-259): while fewer than req
samples are gathered, read a block; a read error aborts the cycle, an
empty read is retried, and otherwise only
min(samplesInBuffer, req - totalSamples) samples are copied in. -/
def fillWindow (req : Nat) (acc : List Int) : List ReadEvent → FillOutcome
  | [] => if req ≤ acc.length then .window acc else .starved
  | .err :: _ =>
    if req ≤ acc.length then .window acc else .fault
  | .ok samples :: rest =>
    if req ≤ acc.length then .window acc
    else if samples.isEmpty then fillWindow req acc rest
    else fillWindow req (acc ++ samples.take (req - acc.length)) rest

/-- The acquisition contract acquireWindow of the spec: the fill loop
started on the zero-filled (empty) window. -/
def acquireWindow (req : Nat) (evs : List ReadEvent) : FillOutcome :=
  fillWindow req [] evs

/-- Storage state of the recording subsystem: LittleFS capacity, bytes
used by everything other than the recording file, and the recording file
(none when /record.wav does not exist, otherwise its size). -/
structure FS where
  total : Nat
  usedOther : Nat
  recFile : Option Nat
deriving DecidableEq

/-- LittleFS.usedBytes(). -/
def FS.usedBytes (fs : FS) : Nat := fs.usedOther + fs.recFile.getD 0

/-- availableBytes = totalBytes - usedBytes (main.cpp line 500). -/
def FS.availBytes (fs : FS) : Nat := fs.total - fs.usedBytes

/-- One iteration of the recording loop (main.cpp lines 570-588): an
i2s_read error, or a block of bytes together with the result of the
file.write call for that block. -/
inductive RecEvent where
  | readErr
  | readOk (bytes : Nat) (writeOk : Bool)

/-- The ways handleRecord ends: 507 insufficient storage, 500 failed to
open, 500 failed WAV header, 500 recording I/O failure, an exhausted
event trace (the code is still blocked in i2s_read), or 200 success. -/
inductive RecStatus where
  | storageFull
  | openFail
  | headerFail
  | ioFail
  | starved
  | done
deriving DecidableEq

/-- The recording loop of handleRecord (main.cpp lines 570-601) on a
freshly opened file with the header already written. Each block writes
min(audioDataSize - totalBytesRead, bytesRead) bytes; a read error or a
short write removes the file (main.cpp line 597); completing the loop
leaves the finished file of 44 + dataSize bytes on storage. -/
def recLoop (fs : FS) (dataSize : Nat) :
    Nat → List RecEvent → RecStatus × FS
  | written, [] =>
    if dataSize ≤ written then (.done, { fs with recFile := some (44 + dataSize) })
    else (.starved, { fs with recFile := some (44 + written) })
  | written, .readErr :: _ =>
    if dataSize ≤ written then (.done, { fs with recFile := some (44 + dataSize) })
    else (.ioFail, { fs with recFile := none })
  | written, .readOk bytes writeOk :: rest =>
    if dataSize ≤ written then (.done, { fs with recFile := some (44 + dataSize) })
    else if writeOk then
      recLoop fs dataSize (written + min (dataSize - written) bytes) rest
    else (.ioFail, { fs with recFile := none })

/-- The write phase of handleRecord after the space check (main.cpp
lines 517-601): open for write (failure creates nothing), write the WAV
header (failure removes the file), then stream blocks via recLoop. -/
def recPhase (fs : FS) (dataSize : Nat) (openOk headerOk : Bool)
    (evs : List RecEvent) : RecStatus × FS :=
  if !openOk then (.openFail, fs)
  else if !headerOk then (.headerFail, { fs with recFile := none })
  else recLoop fs dataSize 0 evs

/-- handleRecord (main.cpp lines 486-615). The required size is
44 + samples*2 (the code fixes samples = 16000 via RECORD_SAMPLE_RATE *
RECORD_TIME; the model keeps it a parameter). If the required size
exceeds available space, an existing recording is removed and space
re-evaluated; if still insufficient the call fails with 507 before any
file is opened. -/
def handleRecord (samples : Nat) (fs : FS) (openOk headerOk : Bool)
    (evs : List RecEvent) : RecStatus × FS :=
  let audioDataSize := samples * 2
  let totalFileSize := 44 + audioDataSize
  if totalFileSize > fs.availBytes then
    match fs.recFile with
    | some _ =>
      let fs1 : FS := { fs with recFile := none }
      if totalFileSize > fs1.availBytes then (.storageFull, fs1)
      else recPhase fs1 audioDataSize openOk headerOk evs
    | none => (.storageFull, fs)
  else recPhase fs audioDataSize openOk headerOk evs

end Listener

/- == Helper lemmas: chunked transfer == -/

namespace Cam

theorem totalChunks_pos_eq (len : Nat) (h : 0 < len) :
    totalChunks len = (len - 1) / CHUNK_SIZE + 1 := by
  unfold totalChunks CHUNK_SIZE
  have h1 : len + 2048 - 1 = (len - 1) + 2048 := by omega
  rw [h1, Nat.add_div_right _ (by norm_num)]

theorem totalChunks_bounds (len : Nat) (h : 0 < len) :
    CHUNK_SIZE * (totalChunks len - 1) < len ∧
      len ≤ CHUNK_SIZE * totalChunks len := by
  rw [totalChunks_pos_eq len h]
  have hd := Nat.div_add_mod (len - 1) 2048
  have hm : (len - 1) % 2048 < 2048 := Nat.mod_lt _ (by norm_num)
  unfold CHUNK_SIZE
  omega

theorem totalChunks_zero_iff (len : Nat) : totalChunks len = 0 ↔ len = 0 := by
  unfold totalChunks CHUNK_SIZE
  omega

theorem chunkLoop_ok (fb : List Nat) :
    ∀ (n idx : Nat), idx + n = totalChunks fb.length →
      chunkLoop fb (fun _ => true) idx (idx * CHUNK_SIZE) n =
        (List.range n).map
          (fun j => Msg.chunkM (idx + j) (chunkSlice fb (idx + j))) := by
  intro n
  induction n with
  | zero => intro idx _; simp [chunkLoop]
  | succ n ih =>
    intro idx h
    have hlen : 0 < fb.length := by
      rcases Nat.eq_zero_or_pos fb.length with h0 | h0
      · rw [(totalChunks_zero_iff fb.length).2 h0] at h; omega
      · exact h0
    have hbounds := totalChunks_bounds fb.length hlen
    have hub : fb.length ≤ CHUNK_SIZE * totalChunks fb.length := hbounds.2
    rw [chunkLoop]
    simp only []
    rw [if_pos trivial]
    have hdata :
        (fb.drop (idx * CHUNK_SIZE)).take
            (if fb.length - idx * CHUNK_SIZE < CHUNK_SIZE
              then fb.length - idx * CHUNK_SIZE else CHUNK_SIZE)
          = chunkSlice fb idx := by
      unfold chunkSlice
      split
      · next hsmall =>
        have hl : (fb.drop (idx * CHUNK_SIZE)).length
            = fb.length - idx * CHUNK_SIZE := List.length_drop _ _
        rw [List.take_of_length_le (by omega),
          List.take_of_length_le (by omega)]
      · rfl
    rcases Nat.eq_zero_or_pos n with hn0 | hnpos
    · subst hn0
      rw [chunkLoop]
      have hr1 : List.range 1 = [0] := rfl
      simp only [hr1, List.map_cons, List.map_nil, Nat.add_zero]
      rw [hdata]
    · have hrem : ¬ (fb.length - idx * CHUNK_SIZE < CHUNK_SIZE) := by
        have hidx1 : idx + 1 ≤ totalChunks fb.length - 1 := by omega
        have h2 : CHUNK_SIZE * (idx + 1) ≤
            CHUNK_SIZE * (totalChunks fb.length - 1) :=
          Nat.mul_le_mul_left _ hidx1
        have hlt := hbounds.1
        have h3 : CHUNK_SIZE * (idx + 1) = idx * CHUNK_SIZE + CHUNK_SIZE := by
          ring
        omega
      rw [if_neg hrem] at hdata ⊢
      have hoff : idx * CHUNK_SIZE + CHUNK_SIZE = (idx + 1) * CHUNK_SIZE := by
        ring
      rw [hdata, hoff, ih (idx + 1) (by omega)]
      rw [ List.range_succ_eq_map, List.map_cons, List.map_map]
      have harg2 : ((fun j => Msg.chunkM (idx + j) (chunkSlice fb (idx + j)))
            ∘ Nat.succ)
          = fun j => Msg.chunkM (idx + 1 + j) (chunkSlice fb (idx + 1 + j)) := by
        funext j
        simp only [Function.comp_apply]
        have hj : idx + Nat.succ j = idx + 1 + j := by omega
        rw [hj]
      rw [harg2]
      simp only [Nat.add_zero]

theorem join_slices (fb : List Nat) :
    ∀ (n k : Nat), fb.length ≤ (k + n) * CHUNK_SIZE →
      ((List.range n).map (fun j => chunkSlice fb (k + j))).flatten
        = fb.drop (k * CHUNK_SIZE) := by
  intro n
  induction n with
  | zero =>
    intro k hk
    simp only [List.range_zero, List.map_nil, List.flatten_nil]
    symm
    exact List.drop_eq_nil_of_le (by simpa using hk)
  | succ n ih =>
    intro k hk
    rw [ List.range_succ_eq_map, List.map_cons, List.map_map,
      List.flatten_cons]
    have harg : ((fun j => chunkSlice fb (k + j)) ∘ Nat.succ)
        = fun j => chunkSlice fb ((k + 1) + j) := by
      funext j
      simp only [Function.comp_apply]
      have hj : k + Nat.succ j = k + 1 + j := by omega
      rw [hj]
    have hk2 : fb.length ≤ (k + 1 + n) * CHUNK_SIZE := by
      have he : (k + 1 + n) * CHUNK_SIZE = (k + (n + 1)) * CHUNK_SIZE := by
        ring
      rw [he]
      exact hk
    rw [harg, ih (k + 1) hk2]
    have hdd : fb.drop ((k + 1) * CHUNK_SIZE)
        = (fb.drop (k * CHUNK_SIZE)).drop CHUNK_SIZE := by
      rw [List.drop_drop]
      have he2 : (k + 1) * CHUNK_SIZE = k * CHUNK_SIZE + CHUNK_SIZE := by
        ring
      rw [he2]
    rw [Nat.add_zero, hdd]
    unfold chunkSlice
    exact List.take_append_drop _ _

theorem chunkLoop_abort (fb : List Nat) (chunkOk : Nat → Bool) (f : Nat)
    (hf : chunkOk f = false) :
    ∀ (n idx offset i : Nat) (d : List Nat), idx ≤ f →
      Msg.chunkM i d ∈ chunkLoop fb chunkOk idx offset n → i ≤ f := by
  intro n
  induction n with
  | zero => intro idx offset i d _ hmem; simp [chunkLoop] at hmem
  | succ n ih =>
    intro idx offset i d hidx hmem
    rw [chunkLoop] at hmem
    cases hok : chunkOk idx with
    | true =>
      rw [hok, if_pos rfl] at hmem
      rcases List.mem_cons.1 hmem with hhead | htail
      · cases hhead; exact hidx
      · have hne : idx ≠ f := by
          intro he; rw [he, hf] at hok; cases hok
        exact ih (idx + 1) _ i d (by omega) htail
    | false =>
      rw [hok, if_neg (by simp)] at hmem
      rcases List.mem_cons.1 hmem with hhead | htail
      · cases hhead; exact hidx
      · simp at htail

theorem endM_mem_trace (fb : List Nat) (imageId : Nat)
    (startOk endOk : Bool) (chunkOk : Nat → Bool) :
    Msg.endM imageId ∈ captureAndSendImage fb imageId startOk chunkOk endOk := by
  unfold captureAndSendImage
  simp

theorem camLoopStep_eval (st : CamState) (now : Nat) :
    camLoopStep st now
      = (⟨false,
          if st.lastSignalTime > 0 ∧ now - st.lastSignalTime > SIGNAL_TIMEOUT
          then 0 else st.lastSignalTime⟩,
        st.imageRequested) := by
  obtain ⟨req, last⟩ := st
  cases req <;> simp [camLoopStep] <;> split_ifs <;> simp_all

end Cam

/- == Helper lemmas: substring search == -/

namespace Cam

theorem startsWithSub_iff : ∀ (sub l : List Char),
    startsWithSub sub l = true ↔ ∃ t, l = sub ++ t := by
  intro sub
  induction sub with
  | nil => intro l; simp [startsWithSub]
  | cons a s ih =>
    intro l
    cases l with
    | nil => simp [startsWithSub]
    | cons b l2 =>
      rw [startsWithSub]
      simp only [Bool.and_eq_true, beq_iff_eq]
      rw [ih l2]
      constructor
      · rintro ⟨rfl, t, rfl⟩
        exact ⟨t, rfl⟩
      · rintro ⟨t, ht⟩
        rw [List.cons_append] at ht
        injection ht with h1 h2
        exact ⟨h1.symm, t, h2⟩

theorem hasSub_iff : ∀ (l sub : List Char),
    hasSub l sub = true ↔ ∃ p t, l = p ++ sub ++ t := by
  intro l
  induction l with
  | nil =>
    intro sub
    rw [hasSub, startsWithSub_iff]
    constructor
    · rintro ⟨t, ht⟩
      exact ⟨[], t, by simpa using ht⟩
    · rintro ⟨p, t, hpt⟩
      have h1 := List.append_eq_nil.1 hpt.symm
      have h2 := List.append_eq_nil.1 h1.1
      refine ⟨[], ?_⟩
      rw [h2.2]
      rfl
  | cons c rest ih =>
    intro sub
    rw [hasSub]
    simp only [Bool.or_eq_true]
    rw [startsWithSub_iff, ih sub]
    constructor
    · rintro (⟨t, ht⟩ | ⟨p, t, ht⟩)
      · exact ⟨[], t, by simpa using ht⟩
      · exact ⟨c :: p, t, by simp [ht]⟩
    · rintro ⟨p, t, hpt⟩
      cases p with
      | nil => exact Or.inl ⟨t, by simpa using hpt⟩
      | cons c2 p2 =>
        rw [List.append_assoc, List.cons_append] at hpt
        injection hpt with h1 h2
        exact Or.inr ⟨p2, t, by rw [h2, List.append_assoc]⟩

end Cam

/- == Helper lemmas: label scan, window fill, recording == -/

namespace Listener

theorem scanStep_found_true (acc : ScanAcc) (x : String × ℚ)
    (h : acc.wakewordFound = true) : (scanStep acc x).wakewordFound = true := by
  unfold scanStep
  split_ifs <;> simp [h]

theorem foldl_found_mono (xs : List (String × ℚ)) :
    ∀ acc : ScanAcc, acc.wakewordFound = true →
      (xs.foldl scanStep acc).wakewordFound = true := by
  induction xs with
  | nil => intro acc h; simpa using h
  | cons x xs ih =>
    intro acc h
    rw [List.foldl_cons]
    exact ih _ (scanStep_found_true acc x h)

theorem foldl_max_bound (xs : List (String × ℚ)) :
    ∀ acc : ScanAcc,
      acc.maxConfidence ≤ (xs.foldl scanStep acc).maxConfidence ∧
      ∀ p ∈ xs, eligibleEntry p → p.2 ≤ (xs.foldl scanStep acc).maxConfidence := by
  induction xs with
  | nil => intro acc; exact ⟨le_refl _, by simp⟩
  | cons x xs ih =>
    intro acc
    rw [List.foldl_cons]
    have hstep : acc.maxConfidence ≤ (scanStep acc x).maxConfidence := by
      unfold scanStep
      split_ifs with h1 h2
      · exact le_of_lt h2
      · exact le_refl _
      · exact le_refl _
    obtain ⟨ihmono, ihall⟩ := ih (scanStep acc x)
    refine ⟨le_trans hstep ihmono, ?_⟩
    intro p hp helig
    rcases List.mem_cons.1 hp with rfl | hmem
    · have hx : p.2 ≤ (scanStep acc p).maxConfidence := by
        unfold scanStep
        rw [if_pos helig]
        split_ifs with h2
        · exact le_refl _
        · exact le_of_not_lt h2
      exact le_trans hx ihmono
    · exact ihall p hmem helig

theorem foldl_selection (xs : List (String × ℚ)) :
    ∀ acc : ScanAcc,
      xs.foldl scanStep acc = acc ∨
      ((xs.foldl scanStep acc).wakewordFound = true ∧
        ((xs.foldl scanStep acc).detectedLabel,
          (xs.foldl scanStep acc).maxConfidence) ∈ xs ∧
        eligibleEntry ((xs.foldl scanStep acc).detectedLabel,
          (xs.foldl scanStep acc).maxConfidence)) := by
  induction xs with
  | nil => intro acc; left; rfl
  | cons x xs ih =>
    intro acc
    rw [List.foldl_cons]
    by_cases helig : eligibleEntry x
    · by_cases hgt : x.2 > acc.maxConfidence
      · have hstep : scanStep acc x = ⟨true, x.2, x.1⟩ := by
          unfold scanStep; rw [if_pos helig, if_pos hgt]
        rw [hstep]
        rcases ih ⟨true, x.2, x.1⟩ with heq | ⟨hf, hmem, he⟩
        · right
          rw [heq]
          refine ⟨rfl, ?_, ?_⟩
          · exact List.mem_cons.2 (Or.inl Prod.mk.eta)
          · rw [Prod.mk.eta]
            exact helig
        · exact Or.inr ⟨hf, List.mem_cons_of_mem x hmem, he⟩
      · have hstep : scanStep acc x = acc := by
          unfold scanStep; rw [if_pos helig, if_neg hgt]
        rw [hstep]
        rcases ih acc with heq | ⟨hf, hmem, he⟩
        · exact Or.inl heq
        · exact Or.inr ⟨hf, List.mem_cons_of_mem x hmem, he⟩
    · have hstep : scanStep acc x = acc := by
        unfold scanStep; rw [if_neg helig]
      rw [hstep]
      rcases ih acc with heq | ⟨hf, hmem, he⟩
      · exact Or.inl heq
      · exact Or.inr ⟨hf, List.mem_cons_of_mem x hmem, he⟩

theorem foldl_found_of_elig (xs : List (String × ℚ)) :
    ∀ (acc : ScanAcc) (p : String × ℚ), p ∈ xs → eligibleEntry p →
      acc.maxConfidence < p.2 →
      (xs.foldl scanStep acc).wakewordFound = true := by
  induction xs with
  | nil => intro acc p hp _ _; simp at hp
  | cons x xs ih =>
    intro acc p hp helig hlt
    rw [List.foldl_cons]
    rcases List.mem_cons.1 hp with rfl | hmem
    · have hstep : scanStep acc p = ⟨true, p.2, p.1⟩ := by
        unfold scanStep; rw [if_pos helig, if_pos hlt]
      rw [hstep]
      exact foldl_found_mono xs _ rfl
    · by_cases hch : scanStep acc x = acc
      · rw [hch]; exact ih acc p hmem helig hlt
      · have hfound : (scanStep acc x).wakewordFound = true := by
          unfold scanStep at hch ⊢
          split_ifs at hch ⊢ with h1 h2
          · rfl
          · exact absurd rfl hch
          · exact absurd rfl hch
        exact foldl_found_mono xs _ hfound

theorem scanStep_no_displace (acc : ScanAcc) (l : String) (c : ℚ)
    (h : c ≤ acc.maxConfidence) : scanStep acc (l, c) = acc := by
  unfold scanStep
  split_ifs with h1 h2
  · exact absurd h2 (not_lt_of_le h)
  · rfl
  · rfl

theorem fillWindow_full (req : Nat) :
    ∀ (evs : List ReadEvent) (acc w : List Int), acc.length ≤ req →
      fillWindow req acc evs = FillOutcome.window w → w.length = req := by
  intro evs
  induction evs with
  | nil =>
    intro acc w hle hw
    rw [fillWindow] at hw
    split_ifs at hw with h
    · cases hw; omega
  | cons ev rest ih =>
    intro acc w hle hw
    cases ev with
    | err =>
      rw [fillWindow] at hw
      split_ifs at hw with h
      · cases hw; omega
    | ok samples =>
      rw [fillWindow] at hw
      split_ifs at hw with h hemp
      · cases hw; omega
      · exact ih acc w hle hw
      · refine ih _ w ?_ hw
        have htake : (samples.take (req - acc.length)).length
            ≤ req - acc.length := by
          rw [List.length_take]
          omega
        rw [List.length_append]
        omega

theorem recLoop_fail_removed (fs : FS) (dataSize : Nat) :
    ∀ (evs : List RecEvent) (written : Nat),
      ((recLoop fs dataSize written evs).1 = RecStatus.ioFail ∨
        (recLoop fs dataSize written evs).1 = RecStatus.headerFail) →
      (recLoop fs dataSize written evs).2.recFile = none := by
  intro evs
  induction evs with
  | nil =>
    intro written h
    rw [recLoop] at h
    split_ifs at h <;> rcases h with h | h <;> simp at h
  | cons ev rest ih =>
    intro written h
    cases ev with
    | readErr =>
      rw [recLoop] at h ⊢
      split_ifs at h ⊢ with hd
      · rcases h with h | h <;> simp at h
      · rfl
    | readOk bytes writeOk =>
      rw [recLoop] at h ⊢
      split_ifs at h ⊢ with hd hw
      · rcases h with h | h <;> simp at h
      · exact ih _ h
      · rfl

theorem recPhase_fail_removed (fs : FS) (dataSize : Nat)
    (openOk headerOk : Bool) (evs : List RecEvent)
    (h : (recPhase fs dataSize openOk headerOk evs).1 = RecStatus.headerFail ∨
      (recPhase fs dataSize openOk headerOk evs).1 = RecStatus.ioFail) :
    (recPhase fs dataSize openOk headerOk evs).2.recFile = none := by
  unfold recPhase at h ⊢
  cases openOk with
  | false => simp at h
  | true =>
    cases headerOk with
    | false => simp
    | true =>
      simp only [Bool.not_true, Bool.false_eq_true, if_false] at h ⊢
      exact recLoop_fail_removed fs dataSize evs 0 (Or.symm h)

end Listener

/- == Claim theorems == -/

/-- Claim C1 counterexample: the claim asserts that after a chunk publish
failure the session end message is never sent. On the concrete 5000-byte
payload of the spec scenario with the publish of chunk index 1 failing,
the code still publishes the end message unconditionally after the chunk
loop breaks, so the claim is false at this input. -/
theorem chunk_fail_end_still_sent_cex :
    ((fun idx => idx != 1) : Nat → Bool) 1 = false
    ∧ 1 < Cam.totalChunks (List.replicate 5000 (0 : Nat)).length
    ∧ Cam.Msg.endM 1 ∈ Cam.captureAndSendImage (List.replicate 5000 (0 : Nat))
        1 true (fun idx => idx != 1) true := by
  refine ⟨rfl, ?_, ?_⟩
  · rw [List.length_replicate]
    norm_num [Cam.totalChunks, Cam.CHUNK_SIZE]
  · exact Cam.endM_mem_trace _ _ _ _ _

/-- Claim C1 as amended: if the publish of chunk f fails, the loop over
chunks aborts immediately, so no chunk with an index above f is ever
published and there is no retry; but the end message of the session is
still published unconditionally, so a receiver must detect the incomplete
session from the missing chunks, not from a missing end message. -/
theorem chunk_fail_aborts_end_still_sent (fb : List Nat) (imageId f : Nat)
    (startOk endOk : Bool) (chunkOk : Nat → Bool)
    (hf : chunkOk f = false) :
    (∀ i d, Cam.Msg.chunkM i d ∈
        Cam.captureAndSendImage fb imageId startOk chunkOk endOk → i ≤ f)
    ∧ Cam.Msg.endM imageId ∈
        Cam.captureAndSendImage fb imageId startOk chunkOk endOk := by
  constructor
  · intro i d hmem
    unfold Cam.captureAndSendImage at hmem
    rcases List.mem_cons.1 hmem with hh | ht
    · cases hh
    · rcases List.mem_append.1 ht with hl | hr
      · exact Cam.chunkLoop_abort fb chunkOk f hf _ 0 0 i d (Nat.zero_le f) hl
      · simp at hr
  · exact Cam.endM_mem_trace _ _ _ _ _

/-- Witness for the amended claim C1 at the 5000-byte spec scenario with
the publish of chunk 1 failing. -/
theorem chunk_fail_aborts_end_still_sent_witness :
    ((fun idx => idx != 1) : Nat → Bool) 1 = false
    ∧ ((∀ i d, Cam.Msg.chunkM i d ∈
          Cam.captureAndSendImage (List.replicate 5000 (0 : Nat)) 1
            true (fun idx => idx != 1) true → i ≤ 1)
      ∧ Cam.Msg.endM 1 ∈
          Cam.captureAndSendImage (List.replicate 5000 (0 : Nat)) 1
            true (fun idx => idx != 1) true) :=
  ⟨rfl, chunk_fail_aborts_end_still_sent (List.replicate 5000 0) 1 1
    true true (fun idx => idx != 1) rfl⟩

/-- Claim C2: for every payload of positive size, with every publish
succeeding, the publish trace is exactly the start message, the chunk
messages 0 .. total - 1 in order where chunk i carries the byte slice
from i * 2048 of length at most 2048, and the end message; concatenating
the slices in numeric order reproduces the payload; the final chunk
carries exactly size - (total - 1) * 2048 bytes; and total is the
ceiling of size / 2048, characterized by
2048 * (total - 1) < size and size less or equal 2048 * total. -/
theorem chunking_lossless (fb : List Nat) (imageId : Nat)
    (startOk endOk : Bool) (h : 0 < fb.length) :
    Cam.captureAndSendImage fb imageId startOk (fun _ => true) endOk
      = Cam.Msg.startM imageId fb.length (Cam.totalChunks fb.length)
        :: (((List.range (Cam.totalChunks fb.length)).map
              (fun i => Cam.Msg.chunkM i (Cam.chunkSlice fb i)))
            ++ [Cam.Msg.endM imageId,
                Cam.Msg.logM "esp32cam: image published (chunked)"])
    ∧ ((List.range (Cam.totalChunks fb.length)).map
          (Cam.chunkSlice fb)).flatten = fb
    ∧ (Cam.chunkSlice fb (Cam.totalChunks fb.length - 1)).length
        = fb.length - (Cam.totalChunks fb.length - 1) * Cam.CHUNK_SIZE
    ∧ Cam.CHUNK_SIZE * (Cam.totalChunks fb.length - 1) < fb.length
    ∧ fb.length ≤ Cam.CHUNK_SIZE * Cam.totalChunks fb.length := by
  have hb := Cam.totalChunks_bounds fb.length h
  refine ⟨?_, ?_, ?_, hb.1, hb.2⟩
  · unfold Cam.captureAndSendImage
    have hc := Cam.chunkLoop_ok fb (Cam.totalChunks fb.length) 0
      (Nat.zero_add _)
    rw [Nat.zero_mul] at hc
    rw [hc]
    simp only [Nat.zero_add]
  · have hj := Cam.join_slices fb (Cam.totalChunks fb.length) 0
      (by rw [Nat.zero_add, Nat.mul_comm]; exact hb.2)
    simp only [Nat.zero_add, Nat.zero_mul, List.drop_zero] at hj
    exact hj
  · unfold Cam.chunkSlice
    rw [List.length_take, List.length_drop]
    have h1 := hb.1
    have h2 := hb.2
    have hcomm : (Cam.totalChunks fb.length - 1) * Cam.CHUNK_SIZE
        = Cam.CHUNK_SIZE * (Cam.totalChunks fb.length - 1) := by ring
    have hcomm2 : Cam.totalChunks fb.length * Cam.CHUNK_SIZE
        = Cam.CHUNK_SIZE * Cam.totalChunks fb.length := by ring
    have hpos : 0 < Cam.totalChunks fb.length := by
      rcases Nat.eq_zero_or_pos (Cam.totalChunks fb.length) with h0 | h0
      · rw [(Cam.totalChunks_zero_iff fb.length).1 h0] at h
        omega
      · exact h0
    have hmul : Cam.CHUNK_SIZE * Cam.totalChunks fb.length
        = Cam.CHUNK_SIZE * (Cam.totalChunks fb.length - 1) + Cam.CHUNK_SIZE := by
      obtain ⟨m, hm⟩ : ∃ m, Cam.totalChunks fb.length = m + 1 :=
        ⟨Cam.totalChunks fb.length - 1, by omega⟩
      rw [hm, Nat.add_sub_cancel]
      ring
    omega

/-- Witness for claim C2 at the 5000-byte payload of the spec scenario. -/
theorem chunking_lossless_witness :
    0 < (List.replicate 5000 (0 : Nat)).length
    ∧ ((List.range (Cam.totalChunks (List.replicate 5000 (0 : Nat)).length)).map
          (Cam.chunkSlice (List.replicate 5000 (0 : Nat)))).flatten
        = List.replicate 5000 (0 : Nat) :=
  ⟨by rw [List.length_replicate]; norm_num,
    (chunking_lossless (List.replicate 5000 0) 1 true true
      (by rw [List.length_replicate]; norm_num)).2.1⟩

/-- Claim C9: the result of the start publish is discarded, so the
publish trace is the same whatever that result is; the end message is
always published; and when every chunk publish succeeds the loop
publishes every chunk, so only a chunk publish failure can stop it. -/
theorem start_publish_unchecked (fb : List Nat) (imageId : Nat)
    (startOk startOk2 endOk : Bool) (chunkOk : Nat → Bool) :
    Cam.captureAndSendImage fb imageId startOk chunkOk endOk
      = Cam.captureAndSendImage fb imageId startOk2 chunkOk endOk
    ∧ Cam.Msg.endM imageId ∈
        Cam.captureAndSendImage fb imageId startOk chunkOk endOk
    ∧ Cam.chunkLoop fb (fun _ => true) 0 0 (Cam.totalChunks fb.length)
        = (List.range (Cam.totalChunks fb.length)).map
            (fun i => Cam.Msg.chunkM i (Cam.chunkSlice fb i)) := by
  refine ⟨rfl, ?_, ?_⟩
  · exact Cam.endM_mem_trace _ _ _ _ _
  · have hc := Cam.chunkLoop_ok fb (Cam.totalChunks fb.length) 0
      (Nat.zero_add _)
    rw [Nat.zero_mul] at hc
    rw [hc]
    simp only [Nat.zero_add]

/-- Claim C4: on the wake-event topic the pending-capture flag is set if
and only if the payload text contains both field-name substrings,
regardless of structural validity: the validation is exactly the
existence of the two substrings, an accepting payload always arms the
capture, a rejected one leaves the state untouched, and the three spec
examples behave as stated (well-formed JSON accepted, malformed text
with both substrings accepted, payload missing one substring rejected). -/
theorem signal_substring_validation (st : Cam.CamState) (msg : List Char)
    (now : Nat) :
    (Cam.validSignal msg = true ↔
      ((∃ p t, msg = p ++ "device_id".toList ++ t)
        ∧ (∃ p t, msg = p ++ "timestamp".toList ++ t)))
    ∧ (Cam.validSignal msg = true →
        Cam.callback st Cam.CamTopic.signal msg now
          = { imageRequested := true, lastSignalTime := now })
    ∧ (Cam.validSignal msg = false →
        Cam.callback st Cam.CamTopic.signal msg now = st)
    ∧ Cam.validSignal ("\x7b\"device_id\":\"x\",\"timestamp\":1\x7d".toList)
        = true
    ∧ Cam.validSignal ("device_id timestamp garbage".toList) = true
    ∧ Cam.validSignal ("\x7b\"device_id\":\"x\"\x7d".toList) = false := by
  refine ⟨?_, ?_, ?_, by decide, by decide, by decide⟩
  · unfold Cam.validSignal
    rw [Bool.and_eq_true, Cam.hasSub_iff, Cam.hasSub_iff]
  · intro hv
    simp [Cam.callback, hv]
  · intro hv
    simp [Cam.callback, hv]

/-- Witness for claim C4: the malformed payload containing both
substrings arms the pending capture. -/
theorem signal_substring_validation_witness :
    Cam.validSignal ("device_id timestamp garbage".toList) = true
    ∧ Cam.callback ⟨false, 0⟩ Cam.CamTopic.signal
        ("device_id timestamp garbage".toList) 7
        = { imageRequested := true, lastSignalTime := 7 } :=
  ⟨by decide, (signal_substring_validation ⟨false, 0⟩
    ("device_id timestamp garbage".toList) 7).2.1 (by decide)⟩

/-- Claim C3: the scan selects a label only if it is eligible, that is
its confidence strictly exceeds 0.4 and it is not a reserved label; the
selected confidence is the maximum over the eligible entries; whenever
an eligible entry exists something is selected; a later entry whose
confidence does not exceed the running maximum never displaces the
selection, so ties go to the first-seen entry; with nothing selected the
DetectionState is left unchanged; and on the mapping hello to 0.9 and
noise to 0.95 the detected label is hello. -/
theorem classify_selection_policy (results : List (String × ℚ))
    (st : Listener.DetectionState) (now : Nat) (lab : String) (c : ℚ) :
    ((Listener.scanResults results).wakewordFound = true →
      ((Listener.scanResults results).detectedLabel,
        (Listener.scanResults results).maxConfidence) ∈ results
      ∧ Listener.eligibleEntry
          ((Listener.scanResults results).detectedLabel,
            (Listener.scanResults results).maxConfidence))
    ∧ (∀ p ∈ results, Listener.eligibleEntry p →
        p.2 ≤ (Listener.scanResults results).maxConfidence)
    ∧ (∀ p ∈ results, Listener.eligibleEntry p →
        (Listener.scanResults results).wakewordFound = true)
    ∧ (c ≤ (Listener.scanResults results).maxConfidence →
        Listener.scanResults (results ++ [(lab, c)])
          = Listener.scanResults results)
    ∧ ((Listener.scanResults results).wakewordFound = false →
        Listener.detectUpdate st results now = st)
    ∧ (mkRat 9 10 = (0.9 : ℚ) ∧ mkRat 19 20 = (0.95 : ℚ))
    ∧ Listener.detectUpdate st
        [("hello", mkRat 9 10), ("noise", mkRat 19 20)] now
        = ⟨true, "hello", mkRat 9 10, now⟩ := by
  refine ⟨?_, ?_, ?_, ?_, ?_, ?_, ?_⟩
  · intro hfound
    rcases Listener.foldl_selection results ⟨false, 0, ""⟩ with heq | hsel
    · unfold Listener.scanResults at hfound
      rw [heq] at hfound
      simp at hfound
    · exact ⟨hsel.2.1, hsel.2.2⟩
  · exact (Listener.foldl_max_bound results ⟨false, 0, ""⟩).2
  · intro p hp helig
    apply Listener.foldl_found_of_elig results ⟨false, 0, ""⟩ p hp helig
    have h04 : (0 : ℚ) < Listener.WAKEWORD_THRESHOLD := by decide
    exact lt_trans h04 helig.1
  · intro hle
    unfold Listener.scanResults at hle ⊢
    rw [List.foldl_append, List.foldl_cons, List.foldl_nil]
    exact Listener.scanStep_no_displace _ lab c hle
  · intro hnf
    unfold Listener.detectUpdate
    rw [if_neg]
    rw [hnf]
    simp
  · constructor <;> norm_num [Rat.mkRat_eq_div]
  · have hs : Listener.scanResults
        [("hello", mkRat 9 10), ("noise", mkRat 19 20)]
        = ⟨true, mkRat 9 10, "hello"⟩ := by decide
    simp only [Listener.detectUpdate, hs]
    rw [if_pos trivial]

/-- Witness for claim C3: a mapping with only a reserved label selects
nothing and leaves the DetectionState unchanged. -/
theorem classify_selection_policy_witness :
    (Listener.scanResults [("noise", mkRat 9 10)]).wakewordFound = false
    ∧ Listener.detectUpdate ⟨false, "", 0, 0⟩ [("noise", mkRat 9 10)] 3
        = ⟨false, "", 0, 0⟩ :=
  ⟨by decide, (classify_selection_policy [("noise", mkRat 9 10)]
    ⟨false, "", 0, 0⟩ 3 "" 0).2.2.2.2.1 (by decide)⟩

/-- Claim C5: an active DetectionState polled strictly more than 5000 ms
after its trigger time is deactivated, and polled at most 5000 ms after
it stays active; the check is a pure function of the state and the clock,
independent of any classification. -/
theorem detection_expiry_5000 (st : Listener.DetectionState) (now : Nat)
    (hactive : st.active = true) :
    (st.triggeredAt + 5000 < now →
      (Listener.loopExpiryCheck st now).active = false)
    ∧ (now ≤ st.triggeredAt + 5000 →
      (Listener.loopExpiryCheck st now).active = true) := by
  constructor
  · intro hlt
    unfold Listener.loopExpiryCheck
    split_ifs with hc
    · rfl
    · exfalso
      apply hc
      rw [hactive]
      simp only [Bool.true_and, decide_eq_true_eq]
      omega
  · intro hle
    unfold Listener.loopExpiryCheck
    split_ifs with hc
    · exfalso
      rw [hactive] at hc
      simp only [Bool.true_and, decide_eq_true_eq] at hc
      omega
    · exact hactive

/-- Witness for claim C5 at a detection triggered at 1000 ms and polled
at 6001 ms. -/
theorem detection_expiry_5000_witness :
    ((⟨true, "w", 1, 1000⟩ : Listener.DetectionState).active = true)
    ∧ (1000 : Nat) + 5000 < 6001
    ∧ (Listener.loopExpiryCheck ⟨true, "w", 1, 1000⟩ 6001).active = false :=
  ⟨rfl, by norm_num,
    (detection_expiry_5000 ⟨true, "w", 1, 1000⟩ 6001 rfl).1 (by norm_num)⟩

/-- Claim C6: the classifier only ever receives a fully populated window
of exactly the required sample count: a window outcome always has length
exactly req (so the final pull copies at most what is still needed and
never overflows), a read error aborts the cycle with a fault before any
classification, and an empty read is retried. -/
theorem window_fully_populated (req : Nat) (acc w samples : List Int)
    (evs : List Listener.ReadEvent) :
    (Listener.acquireWindow req evs = Listener.FillOutcome.window w →
      w.length = req)
    ∧ (acc.length < req →
        Listener.fillWindow req acc (Listener.ReadEvent.err :: evs)
          = Listener.FillOutcome.fault)
    ∧ (acc.length < req → samples.isEmpty = true →
        Listener.fillWindow req acc (Listener.ReadEvent.ok samples :: evs)
          = Listener.fillWindow req acc evs)
    ∧ (acc.length ≤ req →
        Listener.fillWindow req acc evs = Listener.FillOutcome.window w →
        w.length = req) := by
  refine ⟨?_, ?_, ?_, ?_⟩
  · intro hw
    exact Listener.fillWindow_full req evs [] w (by simp) hw
  · intro hlt
    rw [Listener.fillWindow, if_neg (by omega)]
  · intro hlt hemp
    rw [Listener.fillWindow, if_neg (by omega), if_pos hemp]
  · intro hle hw
    exact Listener.fillWindow_full req evs acc w hle hw

/-- Witness for claim C6: two pulls of three samples fill a window of
four samples exactly, the second pull copying only the one sample still
needed. -/
theorem window_fully_populated_witness :
    Listener.acquireWindow 4
        [Listener.ReadEvent.ok [1, 2, 3], Listener.ReadEvent.ok [5, 6, 7]]
      = Listener.FillOutcome.window [1, 2, 3, 5]
    ∧ ([1, 2, 3, 5] : List Int).length = 4 :=
  ⟨by decide, (window_fully_populated 4 [] [1, 2, 3, 5] []
    [Listener.ReadEvent.ok [1, 2, 3], Listener.ReadEvent.ok [5, 6, 7]]).1
    (by decide)⟩

/-- Claim C7: a recording request whose required size 44 + samples times
2 exceeds the available storage deletes the existing prior recording, if
any, before re-evaluating space; if space is still insufficient the call
fails with the storage status and no recording file exists afterwards
and without a prior recording the state is entirely untouched; and any
header-write or recording-loop error leaves no recording file behind. -/
theorem record_storage_policy (samples : Nat) (k : Nat) (fs : Listener.FS)
    (openOk headerOk : Bool) (evs : List Listener.RecEvent) :
    (44 + samples * 2 > fs.availBytes → fs.recFile = none →
      Listener.handleRecord samples fs openOk headerOk evs
        = (Listener.RecStatus.storageFull, fs))
    ∧ (44 + samples * 2 > fs.availBytes → fs.recFile = some k →
        44 + samples * 2 > fs.total - fs.usedOther →
        Listener.handleRecord samples fs openOk headerOk evs
          = (Listener.RecStatus.storageFull, { fs with recFile := none }))
    ∧ ((Listener.handleRecord samples fs openOk headerOk evs).1
          = Listener.RecStatus.headerFail ∨
        (Listener.handleRecord samples fs openOk headerOk evs).1
          = Listener.RecStatus.ioFail →
        (Listener.handleRecord samples fs openOk headerOk evs).2.recFile
          = none) := by
  have havail : ({ fs with recFile := none } : Listener.FS).availBytes
      = fs.total - fs.usedOther := by
    simp [Listener.FS.availBytes, Listener.FS.usedBytes]
  refine ⟨?_, ?_, ?_⟩
  · intro h1 h2
    simp [Listener.handleRecord, h1, h2]
  · intro h1 h2 h3
    simp [Listener.handleRecord, h1, h2, havail, h3]
  · intro hfail
    by_cases h1 : 44 + samples * 2 > fs.availBytes
    · cases hrec : fs.recFile with
      | none =>
        simp [Listener.handleRecord, h1, hrec] at hfail
      | some k2 =>
        by_cases h3 : 44 + samples * 2
            > ({ fs with recFile := none } : Listener.FS).availBytes
        · have hunf : Listener.handleRecord samples fs openOk headerOk evs
              = (Listener.RecStatus.storageFull,
                  { fs with recFile := none }) := by
            simp [Listener.handleRecord, h1, hrec, h3]
          rw [hunf] at hfail
          simp at hfail
        · have hunf : Listener.handleRecord samples fs openOk headerOk evs
              = Listener.recPhase { fs with recFile := none } (samples * 2)
                  openOk headerOk evs := by
            simp [Listener.handleRecord, h1, hrec, h3]
          rw [hunf] at hfail ⊢
          exact Listener.recPhase_fail_removed _ _ _ _ _ hfail
    · have hunf : Listener.handleRecord samples fs openOk headerOk evs
          = Listener.recPhase fs (samples * 2) openOk headerOk evs := by
        simp [Listener.handleRecord, h1]
      rw [hunf] at hfail ⊢
      exact Listener.recPhase_fail_removed _ _ _ _ _ hfail

/-- Witness for claim C7: a 32044-byte request against a 32000-byte
filesystem holding a 200-byte recording and 100 other bytes deletes the
recording, finds space still insufficient, and fails with the storage
status leaving no recording file. -/
theorem record_storage_policy_witness :
    44 + 16000 * 2 > (⟨32000, 100, some 200⟩ : Listener.FS).availBytes
    ∧ (⟨32000, 100, some 200⟩ : Listener.FS).recFile = some 200
    ∧ 44 + 16000 * 2 > 32000 - 100
    ∧ Listener.handleRecord 16000 ⟨32000, 100, some 200⟩ true true []
        = (Listener.RecStatus.storageFull, ⟨32000, 100, none⟩) :=
  ⟨by decide, rfl, by decide,
    (record_storage_policy 16000 200 ⟨32000, 100, some 200⟩ true true
      []).2.1 (by decide) rfl (by decide)⟩

/-- Claim C8 counterexample: the claim asserts that a pending-capture
flag not consumed within 10 seconds is cleared without triggering a
capture. At the concrete state with the flag set and a signal timestamp
of 1000 ms, polled at 20000 ms (19 seconds later), the loop still
consumes the flag and triggers a capture (the second component is true);
the timeout branch only resets the timestamp. So the claim is false at
this input. -/
theorem stale_signal_cex :
    Cam.camLoopStep ⟨true, 1000⟩ 20000 = (⟨false, 0⟩, true) := by decide

/-- Claim C8 as amended: a set pending-capture flag is always consumed
at the next loop poll and always triggers a capture, regardless of how
old the signal is; the 10-second timeout only resets the stored signal
timestamp to 0 and never clears the pending-capture flag nor suppresses
a capture. -/
theorem stale_signal_timeout (st : Cam.CamState) (now : Nat) :
    (st.imageRequested = true →
      (Cam.camLoopStep st now).2 = true
      ∧ (Cam.camLoopStep st now).1.imageRequested = false)
    ∧ (st.imageRequested = false →
      (Cam.camLoopStep st now).2 = false
      ∧ (Cam.camLoopStep st now).1.imageRequested = false)
    ∧ (st.lastSignalTime > 0 → st.lastSignalTime + Cam.SIGNAL_TIMEOUT < now →
      (Cam.camLoopStep st now).1.lastSignalTime = 0)
    ∧ (now ≤ st.lastSignalTime + Cam.SIGNAL_TIMEOUT →
      (Cam.camLoopStep st now).1.lastSignalTime = st.lastSignalTime) := by
  rw [Cam.camLoopStep_eval]
  refine ⟨?_, ?_, ?_, ?_⟩
  · intro h
    exact ⟨h, rfl⟩
  · intro h
    exact ⟨h, rfl⟩
  · intro h1 h2
    simp only []
    rw [if_pos ⟨h1, by omega⟩]
  · intro h1
    simp only []
    rw [if_neg]
    rintro ⟨-, hgt⟩
    omega

/-- Witness for the amended claim C8 at the counterexample input: the
19-second-old flag still triggers a capture and the timestamp is reset. -/
theorem stale_signal_timeout_witness :
    ((⟨true, 1000⟩ : Cam.CamState).imageRequested = true)
    ∧ (1000 : Nat) + Cam.SIGNAL_TIMEOUT < 20000
    ∧ (Cam.camLoopStep ⟨true, 1000⟩ 20000).2 = true
    ∧ (Cam.camLoopStep ⟨true, 1000⟩ 20000).1.lastSignalTime = 0 :=
  ⟨rfl, by decide,
    ((stale_signal_timeout ⟨true, 1000⟩ 20000).1 rfl).1,
    (stale_signal_timeout ⟨true, 1000⟩ 20000).2.2.1 (by decide) (by decide)⟩

/-- Claim C10: when an eligible label is found while the transport is
disconnected, no signal publish is attempted, yet the DetectionState
still becomes active with the selected label, confidence and timestamp;
the state transition is the same as when connected, and when connected
exactly one signal publish is attempted. -/
theorem disconnected_detection_activates (st : Listener.DetectionState)
    (results : List (String × ℚ)) (now : Nat)
    (hfound : (Listener.scanResults results).wakewordFound = true) :
    (Listener.performWakewordDetection st results false now).2 = []
    ∧ (Listener.performWakewordDetection st results false now).1
        = ⟨true, (Listener.scanResults results).detectedLabel,
            (Listener.scanResults results).maxConfidence, now⟩
    ∧ (Listener.performWakewordDetection st results false now).1
        = (Listener.performWakewordDetection st results true now).1
    ∧ (Listener.performWakewordDetection st results true now).2
        = [⟨"sightception-esp32-001", now⟩] := by
  refine ⟨?_, ?_, rfl, ?_⟩
  · simp [Listener.performWakewordDetection, Listener.publishWakeWordSignal,
      hfound]
  · simp [Listener.performWakewordDetection, Listener.detectUpdate, hfound]
  · simp [Listener.performWakewordDetection, Listener.publishWakeWordSignal,
      hfound]

/-- Witness for claim C10: a found wake word with the transport
disconnected attempts no publish. -/
theorem disconnected_detection_activates_witness :
    (Listener.scanResults [("hello", mkRat 9 10)]).wakewordFound = true
    ∧ (Listener.performWakewordDetection ⟨false, "", 0, 0⟩
        [("hello", mkRat 9 10)] false 5).2 = [] :=
  ⟨by decide, (disconnected_detection_activates ⟨false, "", 0, 0⟩
    [("hello", mkRat 9 10)] 5 (by decide)).1⟩

end SightCeption
